import Mathlib

/-!
Verification of the ScanStore persistence facade of the QR-scanner application.

The program stores QR scan records through one of three interchangeable
backends:
* `WebStorage` (src/lib/database.ts, lines 16-100): an in-memory list of
  records plus a next-id counter, mirrored to a single localStorage blob on
  every mutation.  (src/app/scans+api.ts duplicates the same algorithm over
  module-level globals; the embedding below covers both.)
* `MobileStorage` (src/lib/database.ts, lines 103-183): a single SQLite table
  `scans` with `id INTEGER PRIMARY KEY AUTOINCREMENT`, `qr_data TEXT NOT NULL`,
  `timestamp INTEGER NOT NULL`, nullable location columns and a defaulted
  `created_at`.
* `ApiService` (src/unnamed/part_000): the same contract proxied over HTTP.

JavaScript numbers carried by the records (ids, timestamps, coordinates) are
embedded as `Nat`/`Int`; no claim performs fractional arithmetic on them.
The environment-supplied creation time (`new Date().toISOString()` for the
web backend, the engine's `CURRENT_TIMESTAMP` for the SQLite backend) is
passed to the operations as an explicit `String` parameter.
-/

/-- `ScanRecord` (src/lib/database.ts lines 4-13): one persisted scan. -/
structure ScanRecord where
  id : Nat
  qr_data : String
  latitude : Option Int
  longitude : Option Int
  altitude : Option Int
  accuracy : Option Int
  timestamp : Int
  created_at : String
deriving DecidableEq, Repr

/-- `Omit<ScanRecord, 'id' | 'created_at'>`: the caller-supplied part of a
record, as the TypeScript input type of `addScan`. -/
structure ScanInput where
  qr_data : String
  latitude : Option Int
  longitude : Option Int
  altitude : Option Int
  accuracy : Option Int
  timestamp : Int
deriving DecidableEq, Repr

/-- `{...scanData, id, created_at}` — the record built by `addScan`
(src/lib/database.ts lines 67-71). -/
def mkRec (i : ScanInput) (id : Nat) (now : String) : ScanRecord :=
  { id := id
    qr_data := i.qr_data
    latitude := i.latitude
    longitude := i.longitude
    altitude := i.altitude
    accuracy := i.accuracy
    timestamp := i.timestamp
    created_at := now }

/-!  `[...this.scans].sort((a, b) => b.timestamp - a.timestamp)`
(src/lib/database.ts line 58; src/app/scans+api.ts line 78).
`Array.prototype.sort` is a stable sort ordered by the comparator, here
descending timestamp; we embed it as a stable insertion sort.  SQLite's
`SELECT * FROM scans ORDER BY timestamp DESC` (line 134) is modelled with the
same function over rowid (insertion) order.  -/

/-- Insert `r` before the first element whose timestamp is not greater than
`r`'s, keeping earlier equal-timestamp elements of the original list first. -/
def insertTsDesc (r : ScanRecord) : List ScanRecord → List ScanRecord
  | [] => [r]
  | x :: xs => if r.timestamp < x.timestamp then x :: insertTsDesc r xs else r :: x :: xs

/-- Stable sort by timestamp descending. -/
def sortTsDesc : List ScanRecord → List ScanRecord
  | [] => []
  | x :: xs => insertTsDesc x (sortTsDesc xs)

/-- Descending order on timestamps, as a pairwise relation. -/
def TsSortedDesc (l : List ScanRecord) : Prop :=
  List.Pairwise (fun a b => b.timestamp ≤ a.timestamp) l

/-!  ## WebStorage (src/lib/database.ts lines 16-100)

State: the private fields `scans` and `nextId`, plus the localStorage slot
under key `qr_scanner_data`.  `JSON.stringify`/`JSON.parse` of
`{scans, nextId}` is injective on this data, so the persisted blob is
modelled as the pair itself, `Option (List ScanRecord × Nat)` (`none` =
no value stored under the key).  `localStorage.setItem` may throw (quota);
each mutating operation therefore takes a `wok : Bool` saying whether the
write succeeds — `save` catches the failure and only logs it (lines 49-51).
-/
structure WebState where
  scans : List ScanRecord
  nextId : Nat
  store : Option (List ScanRecord × Nat)
deriving DecidableEq, Repr

/-- A fresh `WebStorage` instance over an empty localStorage:
`scans = []`, `nextId = 1` (lines 18-19), nothing stored. -/
def freshW : WebState := ⟨[], 1, none⟩

/-- `init` (lines 25-38): load `{scans, nextId}` from localStorage if a blob
is present; `data.nextId || 1` maps a stored `0` (falsy) to `1`.  The parse
of a blob written by `save` cannot fail, so the catch branch is dead here. -/
def webInit (s : WebState) : WebState :=
  match s.store with
  | none => s
  | some (sc, n) => { scans := sc, nextId := if n = 0 then 1 else n, store := s.store }

/-- `save` (lines 43-52): overwrite the blob with the current state;
a throwing `setItem` (`wok = false`) is caught and swallowed. -/
def webSave (wok : Bool) (s : WebState) : WebState :=
  if wok then { s with store := some (s.scans, s.nextId) } else s

/-- `getScans` (lines 57-59): sort a copy of the in-memory list. -/
def webGetScans (s : WebState) : List ScanRecord :=
  sortTsDesc s.scans

/-- `addScan` (lines 66-75): build the record from the input with
`id = nextId++` and `created_at = now`, push it, save, return the id. -/
def webAddScan (i : ScanInput) (now : String) (wok : Bool) (s : WebState) :
    Nat × WebState :=
  (s.nextId,
   webSave wok
     { s with scans := s.scans ++ [mkRec i s.nextId now], nextId := s.nextId + 1 })

/-- `deleteScan` (lines 82-90): filter out the id (`scan.id !== id`), report
whether the list shrank (`deleted`), save only when it did.  The filtered
list replaces `this.scans` in either case. -/
def webDeleteScan (id : Nat) (wok : Bool) (s : WebState) : Bool × WebState :=
  if (s.scans.filter (fun r => r.id != id)).length < s.scans.length then
    (true, webSave wok { s with scans := s.scans.filter (fun r => r.id != id) })
  else
    (false, { s with scans := s.scans.filter (fun r => r.id != id) })

/-- `getScanById` (lines 97-99): first record with the id, else null. -/
def webGetScanById (id : Nat) (s : WebState) : Option ScanRecord :=
  s.scans.find? (fun r => r.id == id)

/-!  ## The contract as a step relation

One operation vocabulary for all backends (§4.1 of the spec): `init`,
`listAll`, `add`, `findById`, `deleteById`.  `add` carries the caller input
and the environment-supplied creation time. -/
inductive Op where
  | init
  | listAll
  | add (i : ScanInput) (now : String)
  | findById (id : Nat)
  | deleteById (id : Nat)
deriving DecidableEq, Repr

/-- Observable result of one operation; `err` is a thrown `Error`. -/
inductive Res where
  | ok_unit
  | ok_list (rs : List ScanRecord)
  | ok_id (n : Nat)
  | ok_find (r : Option ScanRecord)
  | ok_del (b : Bool)
  | err (msg : String)
deriving DecidableEq, Repr

/-- One `WebStorage` operation (`wok`: whether a localStorage write would
succeed during this operation). -/
def webStep (op : Op) (wok : Bool) (s : WebState) : Res × WebState :=
  match op with
  | .init => (.ok_unit, webInit s)
  | .listAll => (.ok_list (webGetScans s), s)
  | .add i now =>
      (.ok_id (webAddScan i now wok s).1, (webAddScan i now wok s).2)
  | .findById id => (.ok_find (webGetScanById id s), s)
  | .deleteById id =>
      (.ok_del (webDeleteScan id wok s).1, (webDeleteScan id wok s).2)

/-- Run a sequence of operations on `WebStorage`, all writes committing. -/
def runW : List Op → WebState → List Res × WebState
  | [], s => ([], s)
  | op :: ops, s =>
      ((webStep op true s).1 :: (runW ops (webStep op true s).2).1,
       (runW ops (webStep op true s).2).2)

/-!  ## MobileStorage (src/lib/database.ts lines 103-183)

The backend delegates to SQLite; the engine semantics used by the schema of
lines 114-125 are modelled here: `id INTEGER PRIMARY KEY AUTOINCREMENT`
assigns `max id ever issued + 1` and never reuses ids (`seq` below is the
`sqlite_sequence` counter: the largest id ever issued, 0 initially);
`ORDER BY timestamp DESC` sorts the table-scan (rowid) order, ties kept in
rowid order; `DELETE ... WHERE id = ?` reports the number of affected rows;
`created_at DATETIME DEFAULT CURRENT_TIMESTAMP` is the engine clock, passed
in as the `now` string of the operation.  `db` is `null` until `init` runs
(line 104), and every other operation throws on a null `db`. -/
structure MobDb where
  rows : List ScanRecord
  seq : Nat
deriving DecidableEq, Repr

structure MobState where
  db : Option MobDb
deriving DecidableEq, Repr

/-- A fresh `MobileStorage` instance: no database handle yet. -/
def freshM : MobState := ⟨none⟩

/-- Error thrown by every MobileStorage operation when `db` is null. -/
def mobErr : Res := .err "Base de datos no inicializada"

/-- One `MobileStorage` operation. -/
def mobStep (op : Op) (s : MobState) : Res × MobState :=
  match op with
  | .init =>
      match s.db with
      | none => (.ok_unit, ⟨some ⟨[], 0⟩⟩)
      | some _ => (.ok_unit, s)
  | .listAll =>
      match s.db with
      | none => (mobErr, s)
      | some d => (.ok_list (sortTsDesc d.rows), s)
  | .add i now =>
      match s.db with
      | none => (mobErr, s)
      | some d =>
          (.ok_id (d.seq + 1), ⟨some ⟨d.rows ++ [mkRec i (d.seq + 1) now], d.seq + 1⟩⟩)
  | .findById id =>
      match s.db with
      | none => (mobErr, s)
      | some d => (.ok_find (d.rows.find? (fun r => r.id == id)), s)
  | .deleteById id =>
      match s.db with
      | none => (mobErr, s)
      | some d =>
          let rows' := d.rows.filter (fun r => r.id != id)
          (.ok_del (decide (rows'.length < d.rows.length)), ⟨some ⟨rows', d.seq⟩⟩)

/-- Run a sequence of operations on `MobileStorage`. -/
def runM : List Op → MobState → List Res × MobState
  | [], s => ([], s)
  | op :: ops, s =>
      ((mobStep op s).1 :: (runM ops (mobStep op s).2).1,
       (runM ops (mobStep op s).2).2)

/-!  ## Erasure of the backend-assigned `created_at`

The two local backends stamp `created_at` differently
(`new Date().toISOString()` vs the engine's `CURRENT_TIMESTAMP`); the
equivalence claim compares results up to that field. -/
def eraseRec (r : ScanRecord) : ScanRecord := { r with created_at := "" }

def eraseRes : Res → Res
  | .ok_list rs => .ok_list (rs.map eraseRec)
  | .ok_find r => .ok_find (r.map eraseRec)
  | r => r

/-!  ## Invariants of the key-value backend -/

/-- Well-formed id bookkeeping: stored ids are pairwise distinct and every
stored id is strictly below the next-id counter. -/
def IdsOk (scans : List ScanRecord) (nextId : Nat) : Prop :=
  List.Pairwise (fun a b => a.id ≠ b.id) scans ∧ ∀ r ∈ scans, r.id < nextId

/-- Full state invariant of `WebStorage`: the in-memory state is well formed,
the counter is at least 1, and any persisted blob is well formed too (so a
later `init` reload cannot break the invariant). -/
def StInv (s : WebState) : Prop :=
  IdsOk s.scans s.nextId ∧ 1 ≤ s.nextId ∧
    ∀ p ∈ s.store.toList, IdsOk p.1 p.2 ∧ 1 ≤ p.2

/-- The persisted blob is absent or mirrors the current in-memory state —
holds whenever every write so far committed. -/
def Sync (s : WebState) : Prop :=
  s.store = none ∨ s.store = some (s.scans, s.nextId)

/-- States of `WebStorage` reachable from a fresh instance by contract
operations, with each localStorage write free to succeed or fail. -/
inductive ReachableW : WebState → Prop
  | fresh : ReachableW freshW
  | step (op : Op) (wok : Bool) (s : WebState) :
      ReachableW s → ReachableW (webStep op wok s).2

/-- The ids carried by `ok_id` results (i.e. the ids returned by `add`). -/
def addIds (rs : List Res) : List Nat :=
  rs.filterMap (fun r => match r with | .ok_id n => some n | _ => none)

/-- Number of `add` operations in a sequence. -/
def countAdds : List Op → Nat
  | [] => 0
  | Op.add _ _ :: ops => countAdds ops + 1
  | Op.init :: ops => countAdds ops
  | Op.listAll :: ops => countAdds ops
  | Op.findById _ :: ops => countAdds ops
  | Op.deleteById _ :: ops => countAdds ops

/-- Simulation relation for the equivalence of the two local backends: the
key-value state and the relational state hold the same records in the same
order, the web counter is one past the engine's sequence counter, and the
persisted blob (when present) mirrors the web state. -/
def SimWM (s : WebState) (m : MobState) : Prop :=
  ∃ d : MobDb, m.db = some d ∧ d.rows = s.scans ∧ s.nextId = d.seq + 1 ∧ Sync s

/-- The input of the spec's §8 scenario. -/
def sampleInput : ScanInput :=
  { qr_data := "https://example.com", latitude := some 40, longitude := some (-3),
    altitude := none, accuracy := some 5, timestamp := 1000 }

/-- An input with a given timestamp, for the §8 ordering scenario. -/
def tsInput (t : Int) : ScanInput :=
  { qr_data := "q", latitude := none, longitude := none, altitude := none,
    accuracy := none, timestamp := t }

/-- `addScan`'s input at the JavaScript runtime level, where the static type
is erased and any property may be `undefined` (`none`). -/
structure JsScanInput where
  qr_data : Option String
  latitude : Option Int
  longitude : Option Int
  altitude : Option Int
  accuracy : Option Int
  timestamp : Option Int
deriving DecidableEq, Repr

/-- A stored record at the JavaScript runtime level. -/
structure JsScanRecord where
  id : Nat
  qr_data : Option String
  latitude : Option Int
  longitude : Option Int
  altitude : Option Int
  accuracy : Option Int
  timestamp : Option Int
  created_at : String
deriving DecidableEq, Repr

/-- `addScan` (src/lib/database.ts lines 66-75) at the JavaScript runtime:
the spread `{...scanData, id: this.nextId++, created_at: ...}` copies
whatever properties are present — there is no presence check on `qr_data` or
`timestamp` — and the record is pushed and saved unconditionally.  Takes and
returns the `scans`/`nextId` fields; the localStorage mirroring is as in
`webSave` and irrelevant here. -/
def jsAddScan (i : JsScanInput) (now : String) (scans : List JsScanRecord)
    (nextId : Nat) : Nat × List JsScanRecord × Nat :=
  (nextId,
   scans ++ [{ id := nextId, qr_data := i.qr_data, latitude := i.latitude,
               longitude := i.longitude, altitude := i.altitude,
               accuracy := i.accuracy, timestamp := i.timestamp,
               created_at := now }],
   nextId + 1)

/-- `Response.ok` of `fetch`: HTTP status in the 2xx range. -/
def respOk (status : Nat) : Bool :=
  decide (200 ≤ status) && decide (status < 300)

/-- `ApiService.deleteScan` (src/unnamed/part_000 lines 84-100): issue the
DELETE request; on an ok response return `true`; on a non-ok response return
`true` for status 204 (a dead branch — 204 is already ok) and otherwise
throw; a transport failure (`fetch` rejects, modelled as `resp = none`) is
logged and rethrown.  The thrown `Error` is represented by the offending
status, 0 for a transport failure. -/
def apiDeleteScan (resp : Option Nat) : Except Nat Bool :=
  match resp with
  | none => .error 0
  | some status =>
      if respOk status then .ok true
      else if status = 204 then .ok true
      else .error status

/-- A reachable one-record state of `WebStorage` (used by witnesses). -/
def oneRecState : WebState :=
  ⟨[mkRec sampleInput 1 "2024-01-01T00:00:00.000Z"], 2, none⟩

/-!  ## Theorems -/
theorem perm_insertTsDesc (r : ScanRecord) (l : List ScanRecord) :
    List.Perm (insertTsDesc r l) (r :: l) := by
  induction l with
  | nil => simp [insertTsDesc]
  | cons x xs ih =>
    by_cases h : r.timestamp < x.timestamp
    · simp only [insertTsDesc, if_pos h]
      exact (ih.cons x).trans (List.Perm.swap r x xs)
    · simp [insertTsDesc, if_neg h]

theorem perm_sortTsDesc (l : List ScanRecord) : List.Perm (sortTsDesc l) l := by
  induction l with
  | nil => simp [sortTsDesc]
  | cons x xs ih =>
    exact (perm_insertTsDesc x (sortTsDesc xs)).trans (ih.cons x)

theorem tsSortedDesc_insertTsDesc (r : ScanRecord) (l : List ScanRecord)
    (h : TsSortedDesc l) : TsSortedDesc (insertTsDesc r l) := by
  induction l with
  | nil => simp [insertTsDesc, TsSortedDesc]
  | cons x xs ih =>
    rcases (List.pairwise_cons.mp h) with ⟨hx, hxs⟩
    by_cases hlt : r.timestamp < x.timestamp
    · simp only [insertTsDesc, if_pos hlt]
      refine List.pairwise_cons.mpr ⟨?_, ih hxs⟩
      intro y hy
      have hy' := (perm_insertTsDesc r xs).mem_iff.mp hy
      rcases List.mem_cons.mp hy' with hy1 | hy1
      · subst hy1; exact le_of_lt hlt
      · exact hx y hy1
    · simp only [insertTsDesc, if_neg hlt]
      refine List.pairwise_cons.mpr ⟨?_, h⟩
      intro y hy
      rcases List.mem_cons.mp hy with hy1 | hy1
      · subst hy1; exact not_lt.mp hlt
      · exact le_trans (hx y hy1) (not_lt.mp hlt)

theorem tsSortedDesc_sortTsDesc (l : List ScanRecord) : TsSortedDesc (sortTsDesc l) := by
  induction l with
  | nil => simp [sortTsDesc, TsSortedDesc]
  | cons x xs ih => exact tsSortedDesc_insertTsDesc x (sortTsDesc xs) ih

theorem filter_insertTsDesc (r : ScanRecord) (l : List ScanRecord) (t : Int) :
    (insertTsDesc r l).filter (fun x => x.timestamp == t)
      = if r.timestamp = t then r :: l.filter (fun x => x.timestamp == t)
        else l.filter (fun x => x.timestamp == t) := by
  induction l with
  | nil => by_cases h : r.timestamp = t <;> simp [insertTsDesc, List.filter_cons, h]
  | cons x xs ih =>
    by_cases hlt : r.timestamp < x.timestamp
    · simp only [insertTsDesc, if_pos hlt]
      by_cases hx : x.timestamp = t
      · have hr : ¬ r.timestamp = t := by
          intro hr; rw [hr, hx] at hlt; exact lt_irrefl t hlt
        simp [List.filter_cons, hx, hr, ih]
      · simp [List.filter_cons, hx, ih]
    · simp only [insertTsDesc, if_neg hlt]
      by_cases hr : r.timestamp = t <;> simp [List.filter_cons, hr]

/-- Stability of the sort: for each timestamp value, the records carrying it
appear in the sorted output exactly as they appear in the input. -/
theorem filter_sortTsDesc (l : List ScanRecord) (t : Int) :
    (sortTsDesc l).filter (fun x => x.timestamp == t)
      = l.filter (fun x => x.timestamp == t) := by
  induction l with
  | nil => simp [sortTsDesc]
  | cons x xs ih =>
    by_cases hx : x.timestamp = t
    · simp [sortTsDesc, filter_insertTsDesc, hx, List.filter_cons, ih]
    · simp [sortTsDesc, filter_insertTsDesc, hx, List.filter_cons, ih]

/-!  ## List helper lemmas -/
theorem find?_append_right (p : ScanRecord → Bool) (l₁ l₂ : List ScanRecord)
    (h : ∀ x ∈ l₁, ¬ p x = true) : (l₁ ++ l₂).find? p = l₂.find? p := by
  induction l₁ with
  | nil => simp
  | cons x xs ih =>
    rw [List.cons_append, List.find?_cons_of_neg _ (h x (List.mem_cons_self x xs))]
    exact ih (fun y hy => h y (List.mem_cons_of_mem x hy))

theorem filter_eq_self_of_not_shrunk (l : List ScanRecord) (p : ScanRecord → Bool)
    (h : ¬ (l.filter p).length < l.length) : l.filter p = l :=
  (List.filter_sublist l).eq_of_length
    (le_antisymm (List.filter_sublist l).length_le (not_lt.mp h))

theorem filter_length_lt_of_mem (l : List ScanRecord) (p : ScanRecord → Bool)
    (r : ScanRecord) (hr : r ∈ l) (hp : p r = false) :
    (l.filter p).length < l.length := by
  induction l with
  | nil => cases hr
  | cons x xs ih =>
    rcases List.mem_cons.mp hr with h1 | h1
    · subst h1
      rw [List.filter_cons, hp]
      simp only [List.length_cons]
      exact Nat.lt_succ_of_le (List.filter_sublist xs).length_le
    · rw [List.filter_cons]
      cases hpx : p x with
      | true => simpa using Nat.succ_lt_succ (ih h1)
      | false => simp only [List.length_cons]; exact Nat.lt_succ_of_lt (ih h1)

theorem filter_length_lt_iff (l : List ScanRecord) (p : ScanRecord → Bool) :
    (l.filter p).length < l.length ↔ ∃ r ∈ l, p r = false := by
  constructor
  · intro h
    by_contra hc
    push_neg at hc
    have : l.filter p = l := List.filter_eq_self.mpr (fun a ha => by
      cases hpa : p a with
      | true => rfl
      | false => exact absurd hpa (hc a ha))
    rw [this] at h
    exact lt_irrefl _ h
  · rintro ⟨r, hr, hp⟩
    exact filter_length_lt_of_mem l p r hr hp

/-- With pairwise-distinct ids, deleting a present id removes exactly one
record. -/
theorem filter_length_of_mem_distinct (l : List ScanRecord) (id : Nat)
    (hd : List.Pairwise (fun a b => a.id ≠ b.id) l)
    (r : ScanRecord) (hr : r ∈ l) (hid : r.id = id) :
    (l.filter (fun x => x.id != id)).length + 1 = l.length := by
  induction l with
  | nil => cases hr
  | cons x xs ih =>
    rcases List.pairwise_cons.mp hd with ⟨hx, hxs⟩
    rcases List.mem_cons.mp hr with h1 | h1
    · subst h1
      have hfx : xs.filter (fun x => x.id != id) = xs := by
        refine List.filter_eq_self.mpr (fun a ha => ?_)
        have : r.id ≠ a.id := hx a ha
        simp only [bne_iff_ne, ne_eq]
        omega
      simp [List.filter_cons, hid, hfx]
    · have hxid : x.id ≠ id := by
        have := hx r h1
        omega
      have hlen := ih hxs h1
      simp only [List.filter_cons, List.length_cons]
      have hcond : (x.id != id) = true := by simp [hxid]
      rw [hcond]
      simp only [if_true, List.length_cons]
      omega

/-!  ## Invariant preservation for WebStorage -/
theorem idsOk_snoc (scans : List ScanRecord) (nextId : Nat) (i : ScanInput)
    (now : String) (h : IdsOk scans nextId) :
    IdsOk (scans ++ [mkRec i nextId now]) (nextId + 1) := by
  rcases h with ⟨hp, hb⟩
  constructor
  · refine List.pairwise_append.mpr ⟨hp, List.pairwise_singleton _ _, ?_⟩
    intro a ha b hb'
    rcases List.mem_singleton.mp hb' with rfl
    have := hb a ha
    simp only [mkRec]
    omega
  · intro r hr
    rcases List.mem_append.mp hr with h1 | h1
    · exact Nat.lt_succ_of_lt (hb r h1)
    · rcases List.mem_singleton.mp h1 with rfl
      simp only [mkRec]
      omega

theorem idsOk_filter (scans : List ScanRecord) (nextId id : Nat)
    (h : IdsOk scans nextId) :
    IdsOk (scans.filter (fun r => r.id != id)) nextId :=
  ⟨h.1.sublist (List.filter_sublist scans),
   fun r hr => h.2 r (List.mem_of_mem_filter hr)⟩

theorem stInv_webSave (wok : Bool) (s : WebState)
    (hk : IdsOk s.scans s.nextId) (h1 : 1 ≤ s.nextId)
    (hst : ∀ p ∈ s.store.toList, IdsOk p.1 p.2 ∧ 1 ≤ p.2) :
    StInv (webSave wok s) := by
  cases wok with
  | false => exact ⟨hk, h1, hst⟩
  | true =>
    refine ⟨hk, h1, ?_⟩
    intro p hp
    have hp' : p = (s.scans, s.nextId) := by
      simpa [webSave, Option.toList] using hp
    rw [hp']
    exact ⟨hk, h1⟩

theorem stInv_webStep (op : Op) (wok : Bool) (s : WebState) (h : StInv s) :
    StInv (webStep op wok s).2 := by
  obtain ⟨scans, nextId, store⟩ := s
  rcases h with ⟨hk, h1, hst⟩
  cases op with
  | init =>
    cases store with
    | none => exact ⟨hk, h1, hst⟩
    | some p =>
      obtain ⟨sc, n⟩ := p
      have hp := hst (sc, n) (by simp [Option.toList])
      have h2 := hp.2
      have hn : ¬ n = 0 := by omega
      show StInv ⟨sc, if n = 0 then 1 else n, some (sc, n)⟩
      rw [if_neg hn]
      refine ⟨hp.1, hp.2, ?_⟩
      intro q hq
      have hq' : q = (sc, n) := by simpa [Option.toList] using hq
      rw [hq']
      exact hp
  | listAll => exact ⟨hk, h1, hst⟩
  | findById id => exact ⟨hk, h1, hst⟩
  | add i now =>
    show StInv (webSave wok ⟨scans ++ [mkRec i nextId now], nextId + 1, store⟩)
    exact stInv_webSave wok _ (idsOk_snoc scans nextId i now hk)
      (Nat.le_add_left 1 nextId) hst
  | deleteById id =>
    show StInv (webDeleteScan id wok ⟨scans, nextId, store⟩).2
    unfold webDeleteScan
    split
    · exact stInv_webSave wok _ (idsOk_filter scans nextId id hk) h1 hst
    · exact ⟨idsOk_filter scans nextId id hk, h1, hst⟩

/-- Every reachable `WebStorage` state satisfies the invariant. -/
theorem stInv_of_reachable (s : WebState) (h : ReachableW s) : StInv s := by
  induction h with
  | fresh =>
    refine ⟨⟨List.Pairwise.nil, ?_⟩, le_refl 1, ?_⟩
    · intro r hr; cases hr
    · intro p hp; cases hp
  | step op wok s _ ih => exact stInv_webStep op wok s ih

/-!  ## Behaviour of runs with all writes committing -/

/-- When the blob mirrors the current state (or is absent) and the counter is
positive, `init` reloads exactly the state it already has. -/
theorem webInit_sync (s : WebState) (hs : Sync s) (h1 : 1 ≤ s.nextId) :
    webInit s = s := by
  obtain ⟨scans, nextId, store⟩ := s
  cases store with
  | none => rfl
  | some p =>
    rcases hs with hs | hs
    · exact absurd hs (by simp)
    · have hp : p = (scans, nextId) := Option.some.inj hs
      subst hp
      have h1' : 1 ≤ nextId := h1
      show (⟨scans, if nextId = 0 then 1 else nextId, some (scans, nextId)⟩ : WebState) = _
      rw [if_neg (by omega)]

theorem sync_webStep_true (op : Op) (s : WebState) (hs : Sync s) (h1 : 1 ≤ s.nextId) :
    Sync (webStep op true s).2 ∧ 1 ≤ (webStep op true s).2.nextId := by
  cases op with
  | init =>
    have he : (webStep Op.init true s).2 = s := webInit_sync s hs h1
    rw [he]
    exact ⟨hs, h1⟩
  | listAll => exact ⟨hs, h1⟩
  | findById id => exact ⟨hs, h1⟩
  | add i now =>
    obtain ⟨scans, nextId, store⟩ := s
    exact ⟨Or.inr rfl, Nat.le_add_left 1 nextId⟩
  | deleteById id =>
    obtain ⟨scans, nextId, store⟩ := s
    show Sync (webDeleteScan id true ⟨scans, nextId, store⟩).2 ∧
      1 ≤ (webDeleteScan id true ⟨scans, nextId, store⟩).2.nextId
    unfold webDeleteScan
    split
    · exact ⟨Or.inr rfl, h1⟩
    · rename_i hnd
      have hfe : scans.filter (fun r => r.id != id) = scans :=
        filter_eq_self_of_not_shrunk scans _ hnd
      show Sync (⟨scans.filter (fun r => r.id != id), nextId, store⟩ : WebState) ∧
        1 ≤ (⟨scans.filter (fun r => r.id != id), nextId, store⟩ : WebState).nextId
      rw [hfe]
      exact ⟨hs, h1⟩

/-- In a run with all writes committing, the ids handed out by the `add`
operations are exactly the consecutive block starting at the current
next-id counter: each is one greater than the highest ever issued, deletions
notwithstanding. -/
theorem addIds_runW (ops : List Op) : ∀ s : WebState, Sync s → 1 ≤ s.nextId →
    addIds (runW ops s).1 = List.range' s.nextId (countAdds ops) := by
  induction ops with
  | nil => intro s hs h1; rfl
  | cons op ops ih =>
    intro s hs h1
    obtain ⟨hs', h1'⟩ := sync_webStep_true op s hs h1
    have hrec := ih (webStep op true s).2 hs' h1'
    cases op with
    | init =>
      show addIds (Res.ok_unit :: (runW ops (webStep Op.init true s).2).1)
        = List.range' s.nextId (countAdds (Op.init :: ops))
      have he : (webStep Op.init true s).2 = s := webInit_sync s hs h1
      rw [he] at hrec ⊢
      exact hrec
    | listAll =>
      show addIds (Res.ok_list (webGetScans s) :: (runW ops (webStep Op.listAll true s).2).1)
        = List.range' s.nextId (countAdds (Op.listAll :: ops))
      exact hrec
    | findById id =>
      show addIds (Res.ok_find (webGetScanById id s)
            :: (runW ops (webStep (Op.findById id) true s).2).1)
        = List.range' s.nextId (countAdds (Op.findById id :: ops))
      exact hrec
    | add i now =>
      show addIds (Res.ok_id s.nextId :: (runW ops (webStep (Op.add i now) true s).2).1)
        = List.range' s.nextId (countAdds (Op.add i now :: ops))
      have hnext : (webStep (Op.add i now) true s).2.nextId = s.nextId + 1 := rfl
      rw [hnext] at hrec
      calc addIds (Res.ok_id s.nextId :: (runW ops (webStep (Op.add i now) true s).2).1)
          = s.nextId :: addIds (runW ops (webStep (Op.add i now) true s).2).1 := rfl
        _ = s.nextId :: List.range' (s.nextId + 1) (countAdds ops) := by rw [hrec]
        _ = List.range' s.nextId (countAdds ops + 1) := (List.range'_succ _ _ 1).symm
    | deleteById id =>
      show addIds (Res.ok_del (webDeleteScan id true s).1
            :: (runW ops (webStep (Op.deleteById id) true s).2).1)
        = List.range' s.nextId (countAdds (Op.deleteById id :: ops))
      have hnext : (webStep (Op.deleteById id) true s).2.nextId = s.nextId := by
        show (webDeleteScan id true s).2.nextId = s.nextId
        unfold webDeleteScan webSave
        split <;> rfl
      rw [hnext] at hrec
      exact hrec

/-!  ## Simulation between WebStorage and MobileStorage after a first
initialization -/
theorem simWM_step (op : Op) (s : WebState) (m : MobState) (h : SimWM s m) :
    (webStep op true s).1 = (mobStep op m).1 ∧
      SimWM (webStep op true s).2 (mobStep op m).2 := by
  obtain ⟨d, hdb, hrows, hseq, hsync⟩ := h
  obtain ⟨rows, seq⟩ := d
  obtain ⟨mdb⟩ := m
  subst hdb
  obtain ⟨scans, nextId, store⟩ := s
  have hr : rows = scans := hrows
  have hn : nextId = seq + 1 := hseq
  subst hr
  subst hn
  cases op with
  | init =>
    have h1 : 1 ≤ (⟨rows, seq + 1, store⟩ : WebState).nextId := Nat.le_add_left 1 seq
    have he : webInit ⟨rows, seq + 1, store⟩ = ⟨rows, seq + 1, store⟩ :=
      webInit_sync _ hsync h1
    refine ⟨rfl, ?_⟩
    show SimWM (webInit ⟨rows, seq + 1, store⟩) ⟨some ⟨rows, seq⟩⟩
    rw [he]
    exact ⟨⟨rows, seq⟩, rfl, rfl, rfl, hsync⟩
  | listAll =>
    exact ⟨rfl, ⟨⟨rows, seq⟩, rfl, rfl, rfl, hsync⟩⟩
  | findById id =>
    exact ⟨rfl, ⟨⟨rows, seq⟩, rfl, rfl, rfl, hsync⟩⟩
  | add i now =>
    exact ⟨rfl, ⟨⟨rows ++ [mkRec i (seq + 1) now], seq + 1⟩, rfl, rfl, rfl, Or.inr rfl⟩⟩
  | deleteById id =>
    by_cases hlt : (rows.filter (fun r => r.id != id)).length < rows.length
    · have h1 : (webDeleteScan id true ⟨rows, seq + 1, store⟩).1 = true := by
        unfold webDeleteScan
        rw [if_pos hlt]
      have h2 : decide ((rows.filter (fun r => r.id != id)).length < rows.length)
          = true := decide_eq_true hlt
      have h3 : (webDeleteScan id true ⟨rows, seq + 1, store⟩).2
          = webSave true ⟨rows.filter (fun r => r.id != id), seq + 1, store⟩ := by
        unfold webDeleteScan
        rw [if_pos hlt]
      constructor
      · show Res.ok_del (webDeleteScan id true ⟨rows, seq + 1, store⟩).1
          = Res.ok_del (decide ((rows.filter (fun r => r.id != id)).length < rows.length))
        rw [h1, h2]
      · show SimWM (webDeleteScan id true ⟨rows, seq + 1, store⟩).2
          ⟨some ⟨rows.filter (fun r => r.id != id), seq⟩⟩
        rw [h3]
        exact ⟨⟨rows.filter (fun r => r.id != id), seq⟩, rfl, rfl, rfl, Or.inr rfl⟩
    · have h1 : (webDeleteScan id true ⟨rows, seq + 1, store⟩).1 = false := by
        unfold webDeleteScan
        rw [if_neg hlt]
      have h2 : decide ((rows.filter (fun r => r.id != id)).length < rows.length)
          = false := decide_eq_false hlt
      have hfe : rows.filter (fun r => r.id != id) = rows :=
        filter_eq_self_of_not_shrunk rows _ hlt
      have h3 : (webDeleteScan id true ⟨rows, seq + 1, store⟩).2
          = ⟨rows.filter (fun r => r.id != id), seq + 1, store⟩ := by
        unfold webDeleteScan
        rw [if_neg hlt]
      constructor
      · show Res.ok_del (webDeleteScan id true ⟨rows, seq + 1, store⟩).1
          = Res.ok_del (decide ((rows.filter (fun r => r.id != id)).length < rows.length))
        rw [h1, h2]
      · show SimWM (webDeleteScan id true ⟨rows, seq + 1, store⟩).2
          ⟨some ⟨rows.filter (fun r => r.id != id), seq⟩⟩
        rw [h3]
        refine ⟨⟨rows.filter (fun r => r.id != id), seq⟩, rfl, rfl, rfl, ?_⟩
        show Sync (⟨rows.filter (fun r => r.id != id), seq + 1, store⟩ : WebState)
        rw [hfe]
        exact hsync

theorem runWM_eq (ops : List Op) : ∀ (s : WebState) (m : MobState), SimWM s m →
    (runW ops s).1 = (runM ops m).1 := by
  induction ops with
  | nil => intro s m _; rfl
  | cons op ops ih =>
    intro s m h
    obtain ⟨h1, h2⟩ := simWM_step op s m h
    show (webStep op true s).1 :: (runW ops (webStep op true s).2).1
      = (mobStep op m).1 :: (runM ops (mobStep op m).2).1
    rw [h1, ih _ _ h2]

/-!  ## State-invariant facts for the witness states -/
theorem stInv_freshW : StInv freshW :=
  ⟨⟨List.Pairwise.nil, fun r hr => absurd hr (List.not_mem_nil r)⟩, le_refl 1,
   fun p hp => absurd hp (List.not_mem_nil p)⟩

theorem stInv_oneRecState : StInv oneRecState := by
  refine ⟨⟨List.pairwise_singleton _ _, ?_⟩, by decide, ?_⟩
  · intro r hr
    rcases List.mem_singleton.mp hr with rfl
    decide
  · intro p hp
    exact absurd hp (List.not_mem_nil p)

theorem webAddScan_fst (i : ScanInput) (now : String) (wok : Bool) (s : WebState) :
    (webAddScan i now wok s).1 = s.nextId := rfl

theorem webAddScan_scans (i : ScanInput) (now : String) (wok : Bool) (s : WebState) :
    (webAddScan i now wok s).2.scans = s.scans ++ [mkRec i s.nextId now] := by
  cases wok <;> rfl

/-!  ## Claims -/

/-- C1 (amended): for every sequence of contract operations that begins with
`initialize`, the key-value (`WebStorage`) and embedded-relational
(`MobileStorage`) variants, run from fresh backends with writes committing,
return identical observable results for each operation — same returned ids,
same record sequences up to the backend-assigned `created_at`, same
success/failure outcomes. -/
theorem C1_variants_equivalent_after_init (ops : List Op) :
    ((runW (Op.init :: ops) freshW).1).map eraseRes
      = ((runM (Op.init :: ops) freshM).1).map eraseRes := by
  have hsim : SimWM (webStep Op.init true freshW).2 (mobStep Op.init freshM).2 :=
    ⟨⟨[], 0⟩, rfl, rfl, rfl, Or.inl rfl⟩
  have h := runWM_eq ops _ _ hsim
  show (Res.ok_unit :: (runW ops (webStep Op.init true freshW).2).1).map eraseRes
    = (Res.ok_unit :: (runM ops (mobStep Op.init freshM).2).1).map eraseRes
  rw [h]

/-- C1 counterexample: from fresh backends, a sequence that does not begin
with `initialize` distinguishes the variants: `add` succeeds with id 1 on the
key-value backend but throws the not-initialized error on the relational
one. -/
theorem C1_counterexample :
    ((runW [Op.add sampleInput "2024-01-01T00:00:00.000Z"] freshW).1).map eraseRes
      ≠ ((runM [Op.add sampleInput "2024-01-01T00:00:00.000Z"] freshM).1).map eraseRes := by
  decide

/-- C2 (confirmed): `getScans` returns all stored records (a permutation of
the stored sequence) ordered by timestamp descending, equal-timestamp records
kept in insertion order (the records at each timestamp appear exactly as
stored); on an empty store it returns the empty sequence, and the operation
never fails (its result is always `ok_list`); inserting timestamps
100, 300, 200 in that order and listing yields 300, 200, 100. -/
theorem C2_getScans_sorted_stable :
    (∀ s : WebState,
      List.Perm (webGetScans s) s.scans
        ∧ List.Pairwise (fun a b => b.timestamp ≤ a.timestamp) (webGetScans s)
        ∧ (∀ t : Int, (webGetScans s).filter (fun r => r.timestamp == t)
              = s.scans.filter (fun r => r.timestamp == t))
        ∧ (∀ wok : Bool, (webStep Op.listAll wok s).1 = Res.ok_list (webGetScans s)))
      ∧ (∀ (n : Nat) (st : Option (List ScanRecord × Nat)), webGetScans ⟨[], n, st⟩ = [])
      ∧ (webGetScans (runW [Op.add (tsInput 100) "t1", Op.add (tsInput 300) "t2",
            Op.add (tsInput 200) "t3"] freshW).2).map (fun r => r.timestamp)
          = [300, 200, 100] := by
  refine ⟨?_, fun n st => rfl, by decide⟩
  intro s
  exact ⟨perm_sortTsDesc s.scans, tsSortedDesc_sortTsDesc s.scans,
         fun t => filter_sortTsDesc s.scans t, fun wok => rfl⟩

/-- C3 (confirmed): from any invariant-satisfying state, `addScan` followed
by `getScanById` on the returned id yields exactly the record built from the
input fields plus the assigned id and the (non-empty) creation time. -/
theorem C3_add_then_find (s : WebState) (i : ScanInput) (now : String) (wok : Bool)
    (hinv : StInv s) (hnow : now ≠ "") :
    webGetScanById (webAddScan i now wok s).1 (webAddScan i now wok s).2
        = some (mkRec i s.nextId now)
      ∧ (mkRec i s.nextId now).id = (webAddScan i now wok s).1
      ∧ (mkRec i s.nextId now).created_at ≠ "" := by
  refine ⟨?_, rfl, hnow⟩
  show ((webAddScan i now wok s).2.scans).find?
      (fun r => r.id == (webAddScan i now wok s).1) = some (mkRec i s.nextId now)
  rw [webAddScan_scans, webAddScan_fst]
  have hall : ∀ r ∈ s.scans, ¬ ((fun r => r.id == s.nextId) r = true) := by
    intro r hr
    have hb := hinv.1.2 r hr
    simp only [beq_iff_eq]
    omega
  rw [find?_append_right _ _ _ hall]
  exact List.find?_cons_of_pos _ (by simp [mkRec])

/-- Witness for C3 at the fresh state and the §8 sample input. -/
theorem C3_add_then_find_witness :
    StInv freshW ∧ "2024-01-01T00:00:00.000Z" ≠ ""
      ∧ webGetScanById
            (webAddScan sampleInput "2024-01-01T00:00:00.000Z" true freshW).1
            (webAddScan sampleInput "2024-01-01T00:00:00.000Z" true freshW).2
          = some (mkRec sampleInput freshW.nextId "2024-01-01T00:00:00.000Z") :=
  ⟨stInv_freshW, by decide,
   (C3_add_then_find freshW sampleInput "2024-01-01T00:00:00.000Z" true
      stInv_freshW (by decide)).1⟩

/-- C4 (confirmed): with writes committing, from any synced state the ids
returned by the `add` operations of any operation sequence — deletions and
other operations freely interleaved — are exactly the consecutive block
starting at the current next-id counter, hence strictly increasing, each one
greater than the highest id ever issued, and never reused. -/
theorem C4_ids_strictly_increasing (ops : List Op) (s : WebState)
    (hs : Sync s) (h1 : 1 ≤ s.nextId) :
    addIds (runW ops s).1 = List.range' s.nextId (countAdds ops)
      ∧ List.Pairwise (· < ·) (addIds (runW ops s).1) := by
  have h := addIds_runW ops s hs h1
  refine ⟨h, ?_⟩
  rw [h]
  exact List.pairwise_lt_range' _ _

/-- Witness for C4: two adds with a deletion in between, from fresh. -/
theorem C4_ids_strictly_increasing_witness :
    Sync freshW ∧ 1 ≤ freshW.nextId
      ∧ addIds (runW [Op.add sampleInput "t1", Op.deleteById 1,
            Op.add sampleInput "t2"] freshW).1
          = List.range' freshW.nextId
              (countAdds [Op.add sampleInput "t1", Op.deleteById 1,
                Op.add sampleInput "t2"]) :=
  ⟨Or.inl rfl, le_refl 1,
   (C4_ids_strictly_increasing
      [Op.add sampleInput "t1", Op.deleteById 1, Op.add sampleInput "t2"]
      freshW (Or.inl rfl) (le_refl 1)).1⟩

/-- C5 (confirmed): `deleteScan` returns `true` exactly when a record with
the id is present; on any never-assigned id (in particular any id at or
above the next-id counter) it returns `false` — an `ok_del` result, not a
failure — and leaves the whole state unchanged; on a present id it removes
exactly one record, after which `getScanById` for that id returns `none`. -/
theorem C5_delete_semantics (s : WebState) (id : Nat) (wok : Bool) (hinv : StInv s) :
    ((webDeleteScan id wok s).1 = true ↔ ∃ r ∈ s.scans, r.id = id)
      ∧ (s.nextId ≤ id → (webDeleteScan id wok s).1 = false)
      ∧ ((webDeleteScan id wok s).1 = false → (webDeleteScan id wok s).2 = s)
      ∧ ((webDeleteScan id wok s).1 = true →
          (webDeleteScan id wok s).2.scans.length + 1 = s.scans.length
            ∧ webGetScanById id (webDeleteScan id wok s).2 = none)
      ∧ (webStep (Op.deleteById id) wok s).1 = Res.ok_del (webDeleteScan id wok s).1 := by
  have hiff : (s.scans.filter (fun r => r.id != id)).length < s.scans.length
      ↔ ∃ r ∈ s.scans, r.id = id := by
    rw [filter_length_lt_iff]
    constructor
    · rintro ⟨r, hr, hp⟩
      refine ⟨r, hr, ?_⟩
      simpa using hp
    · rintro ⟨r, hr, hp⟩
      exact ⟨r, hr, by simp [hp]⟩
  by_cases hlt : (s.scans.filter (fun r => r.id != id)).length < s.scans.length
  · have hb : (webDeleteScan id wok s).1 = true := by
      unfold webDeleteScan
      rw [if_pos hlt]
    have hsc : (webDeleteScan id wok s).2.scans = s.scans.filter (fun r => r.id != id) := by
      unfold webDeleteScan
      rw [if_pos hlt]
      cases wok <;> rfl
    refine ⟨⟨fun _ => hiff.mp hlt, fun _ => hb⟩, ?_, ?_, ?_, rfl⟩
    · intro hge
      exfalso
      obtain ⟨r, hr, hid⟩ := hiff.mp hlt
      have := hinv.1.2 r hr
      omega
    · intro hf
      rw [hb] at hf
      exact Bool.noConfusion hf
    · intro _
      constructor
      · rw [hsc]
        obtain ⟨r, hr, hid⟩ := hiff.mp hlt
        exact filter_length_of_mem_distinct s.scans id hinv.1.1 r hr hid
      · show (webDeleteScan id wok s).2.scans.find? (fun r => r.id == id) = none
        rw [hsc, List.find?_eq_none]
        intro x hx
        have hx2 := (List.mem_filter.mp hx).2
        simp only [bne_iff_ne, ne_eq] at hx2
        simp only [beq_iff_eq]
        exact hx2
  · have hb : (webDeleteScan id wok s).1 = false := by
      unfold webDeleteScan
      rw [if_neg hlt]
    have hfe : s.scans.filter (fun r => r.id != id) = s.scans :=
      filter_eq_self_of_not_shrunk s.scans _ hlt
    have hst : (webDeleteScan id wok s).2 = s := by
      unfold webDeleteScan
      rw [if_neg hlt]
      show ({ s with scans := s.scans.filter (fun r => r.id != id) } : WebState) = s
      rw [hfe]
    refine ⟨⟨?_, ?_⟩, fun _ => hb, fun _ => hst, ?_, rfl⟩
    · intro ht
      rw [hb] at ht
      exact Bool.noConfusion ht
    · intro hex
      exact absurd (hiff.mpr hex) hlt
    · intro ht
      rw [hb] at ht
      exact Bool.noConfusion ht

/-- Witness for C5 at a reachable one-record state. -/
theorem C5_delete_semantics_witness :
    StInv oneRecState
      ∧ ((webDeleteScan 1 true oneRecState).1 = true
          ↔ ∃ r ∈ oneRecState.scans, r.id = 1) :=
  ⟨stInv_oneRecState, (C5_delete_semantics oneRecState 1 true stInv_oneRecState).1⟩

/-- C6 counterexample: from the fresh, never-initialized backend with the
localStorage write unable to commit, `addScan` still returns the assigned id
1 — an `ok_id` result, not a `StorageUnavailable` failure — and nothing is
persisted. -/
theorem C6_counterexample :
    (webStep (Op.add sampleInput "2024-01-01T00:00:00.000Z") false freshW).1
        = Res.ok_id 1
      ∧ (webStep (Op.add sampleInput "2024-01-01T00:00:00.000Z") false freshW).2.store
          = none :=
  ⟨rfl, rfl⟩

/-- C6 (amended): when the localStorage write commits, `addScan`
re-serializes the full record set together with the next-id counter into the
persisted blob before returning; but `addScan` never fails — it returns the
assigned id whether or not the backend was initialized and whether or not the
write commits, and a throwing write is caught and swallowed, leaving the
previously persisted blob in place. -/
theorem C6_amended_add_durability (i : ScanInput) (now : String) (s : WebState) :
    (webStep (Op.add i now) true s).2.store
        = some ((webStep (Op.add i now) true s).2.scans,
                (webStep (Op.add i now) true s).2.nextId)
      ∧ (∀ wok : Bool, (webStep (Op.add i now) wok s).1 = Res.ok_id s.nextId)
      ∧ (webStep (Op.add i now) false s).2.store = s.store := by
  obtain ⟨scans, nextId, store⟩ := s
  exact ⟨rfl, fun wok => rfl, rfl⟩

/-- C7 counterexample: at the JavaScript runtime an input whose `qr_data` and
`timestamp` are both absent is persisted anyway — `addScan` performs no
presence check, returns the assigned id 1 and pushes a record, instead of
failing without persisting. -/
theorem C7_counterexample :
    (jsAddScan ⟨none, none, none, none, none, none⟩
        "2024-01-01T00:00:00.000Z" [] 1).1 = 1
      ∧ (jsAddScan ⟨none, none, none, none, none, none⟩
            "2024-01-01T00:00:00.000Z" [] 1).2.1
          = [⟨1, none, none, none, none, none, none, "2024-01-01T00:00:00.000Z"⟩] :=
  ⟨rfl, rfl⟩

/-- C7 (amended): `addScan` performs no runtime presence validation — the
presence of `qr_data` and `timestamp` is enforced only by the static input
type.  For every input, the key-value backend assigns the next id and the
current time as `created_at`, persists the record, and returns the id; at
the JavaScript runtime even inputs with absent fields are persisted and
given an id; the relational backend (once initialized) likewise assigns
its next rowid and returns it. -/
theorem C7_amended_add_no_validation (i : ScanInput) (now : String) (wok : Bool)
    (s : WebState) :
    (webAddScan i now wok s).1 = s.nextId
      ∧ (webAddScan i now wok s).2.scans = s.scans ++ [mkRec i s.nextId now]
      ∧ (webAddScan i now wok s).2.nextId = s.nextId + 1
      ∧ (∀ (j : JsScanInput) (scans : List JsScanRecord) (n : Nat),
          (jsAddScan j now scans n).1 = n
            ∧ (jsAddScan j now scans n).2.1.length = scans.length + 1)
      ∧ (∀ d : MobDb, (mobStep (Op.add i now) ⟨some d⟩).1 = Res.ok_id (d.seq + 1)
            ∧ (mobStep (Op.add i now) ⟨some d⟩).2
                = ⟨some ⟨d.rows ++ [mkRec i (d.seq + 1) now], d.seq + 1⟩⟩) := by
  obtain ⟨scans, nextId, store⟩ := s
  refine ⟨rfl, ?_, ?_, fun j sc n => ⟨rfl, by simp [jsAddScan]⟩, fun d => ⟨rfl, rfl⟩⟩
  · cases wok <;> rfl
  · cases wok <;> rfl

/-- C8 counterexample: a 404 "not found" response makes the remote
`deleteScan` throw — the status is propagated as a failure — rather than
return success. -/
theorem C8_counterexample :
    apiDeleteScan (some 404) = Except.error 404
      ∧ apiDeleteScan (some 404) ≠ Except.ok true :=
  ⟨rfl, fun he => Except.noConfusion he⟩

/-- C8 (amended): the remote `deleteScan` treats any success-status response
(2xx, which includes 204 No Content) as success returning `true`; every
non-success status — including a 404 "not found" — and any transport failure
is surfaced as a propagated failure rather than swallowed. -/
theorem C8_amended_delete_status_handling (status : Nat) :
    (apiDeleteScan (some status) = Except.ok true ↔ respOk status = true)
      ∧ (apiDeleteScan (some status) = Except.error status ↔ respOk status = false)
      ∧ apiDeleteScan none = Except.error 0
      ∧ apiDeleteScan (some 204) = Except.ok true
      ∧ apiDeleteScan (some 404) = Except.error 404 := by
  by_cases h : respOk status = true
  · have hv : apiDeleteScan (some status) = Except.ok true := by
      show (if respOk status = true then Except.ok true
            else if status = 204 then Except.ok true
            else Except.error status) = Except.ok true
      rw [if_pos h]
    rw [hv]
    refine ⟨⟨fun _ => h, fun _ => rfl⟩, ⟨?_, ?_⟩, rfl, rfl, rfl⟩
    · intro he
      exact absurd he (by simp)
    · intro hf
      rw [h] at hf
      exact Bool.noConfusion hf
  · have hf : respOk status = false := by
      cases hb : respOk status with
      | true => exact absurd hb h
      | false => rfl
    have h204 : ¬ status = 204 := by
      intro he
      subst he
      exact h (by decide)
    have hv : apiDeleteScan (some status) = Except.error status := by
      show (if respOk status = true then Except.ok true
            else if status = 204 then Except.ok true
            else Except.error status) = Except.error status
      rw [if_neg h, if_neg h204]
    rw [hv]
    refine ⟨⟨?_, ?_⟩, ⟨fun _ => hf, fun _ => rfl⟩, rfl, rfl, rfl⟩
    · intro he
      exact absurd he (by simp)
    · intro ht
      rw [ht] at hf
      exact Bool.noConfusion hf

/-- C9 (confirmed): every state of the key-value backend reachable from a
fresh instance by contract operations (each write free to succeed or fail)
has pairwise-distinct stored ids, all strictly below the next-id counter,
and every operation preserves this invariant. -/
theorem C9_reachable_ids_invariant (s : WebState) (h : ReachableW s) :
    (List.Pairwise (fun a b => a.id ≠ b.id) s.scans
        ∧ ∀ r ∈ s.scans, r.id < s.nextId)
      ∧ ∀ (op : Op) (wok : Bool),
          List.Pairwise (fun a b => a.id ≠ b.id) (webStep op wok s).2.scans
            ∧ ∀ r ∈ (webStep op wok s).2.scans, r.id < (webStep op wok s).2.nextId := by
  have h1 := stInv_of_reachable s h
  refine ⟨⟨h1.1.1, h1.1.2⟩, ?_⟩
  intro op wok
  have h2 := stInv_webStep op wok s h1
  exact ⟨h2.1.1, h2.1.2⟩

/-- Witness for C9 at the fresh state. -/
theorem C9_reachable_ids_invariant_witness :
    ReachableW freshW
      ∧ (List.Pairwise (fun a b => a.id ≠ b.id) freshW.scans
          ∧ ∀ r ∈ freshW.scans, r.id < freshW.nextId) :=
  ⟨ReachableW.fresh, (C9_reachable_ids_invariant freshW ReachableW.fresh).1⟩

/-- C10 (confirmed): the read operations `getScans` and `getScanById` leave
the entire backend state — the stored record sequence in its insertion
order, the next-id counter, and the persisted blob — unchanged. -/
theorem C10_reads_pure (s : WebState) (wok : Bool) (id : Nat) :
    (webStep Op.listAll wok s).2 = s
      ∧ (webStep (Op.findById id) wok s).2 = s
      ∧ (webStep Op.listAll wok s).2.scans = s.scans
      ∧ (webStep (Op.findById id) wok s).2.nextId = s.nextId
      ∧ (webStep (Op.findById id) wok s).2.store = s.store :=
  ⟨rfl, rfl, rfl, rfl, rfl⟩
